import Mathlib

/- Verification of the PyDSM NTF-design core against its specification.

The Python sources are shallowly embedded into Lean:

* pure numerical code becomes functions over ℝ and ℂ;
* the adaptive quadrature routine (scipy.integrate.quad), the SDP solver,
  the polynomial root finder and the repository helpers that live outside
  the verified sources (evalTF, cplxpair, ds_optzeros, padl, padr,
  fmin_l_bfgs_b, is_negligible) are treated as the external interfaces the
  spec declares them to be: they are either function parameters of the
  embedded routines or, where a concrete value is required, definitions
  modelled from the spec;
* Python keyword/positional argument passing is made explicit in the two
  places where option dictionaries are forwarded to a callee that does not
  accept them, since the resulting TypeError is observable behaviour;
* fallible code returns Except, warnings are accumulated in the result.

Python-2 semantics (strict map, integer division for len(p)/2) are assumed,
matching the code base (xrange compatibility shim, cvxpy_tinoco binding). -/

open Real Complex

open scoped Classical

noncomputable section

/-- Embedding of pydsm.ft.dtft_hermitian (src/pydsm/ft.py lines 97-123).
The Python code first replaces x by x.real (line 121) and then returns the
closure f ↦ x[0] + Σ n ≥ 1, x[n]·2·cos(2πfn/fs) (lines 122-123).  An empty
input makes the returned closure fail on call (x[0] raises IndexError),
which is modelled by none. -/
def dtft_hermitian (x : List ℂ) (fs : ℝ) : ℝ → Option ℝ := fun f =>
  match x.map Complex.re with
  | [] => none
  | x0 :: rest =>
      some (x0 + ((rest.enumFrom 1).map
        (fun nv => nv.2 * 2 * Real.cos (2 * π * f * nv.1 / fs))).sum)

/-- Keyword parameters of pydsm.ft.idtft_hermitian that remain free after the
two positional arguments: the Python signature (src/pydsm/ft.py line 165) is
idtft_hermitian(Ff, tt, ip={}, fs=1), and q0_weighting fills Ff and tt
positionally. -/
def idtft_hermitian_kwargs : List String := ["ip", "fs"]

/-- Embedding of pydsm.ft.idtft_hermitian (src/pydsm/ft.py lines 161-198) at a
scalar time t: 2·∫₀^(1/2) Re(Ff(f·fs))·cos(2πft) df.  The adaptive quadrature
routine scipy.integrate.quad, together with the integrator options ip that
configure it, is abstracted as the parameter quad (an external interface per
spec section 6). -/
def idtft_hermitian (quad : (ℝ → ℝ) → ℝ → ℝ → ℝ) (Ff : ℝ → ℂ) (t : ℝ)
    (fs : ℝ) : ℝ :=
  2 * quad (fun f => (Ff (f * fs)).re * Real.cos (2 * π * f * t)) 0 (1 / 2)

/-- Option keys accepted by q0_weighting: the check_options call on line 125 of
src/pydsm/NTFdesign/weighting/_fir_weighting.py allows exactly "quad_opts". -/
def q0_weighting_allowed : List String := ["quad_opts"]

/-- Embedding of q0_weighting (src/pydsm/NTFdesign/weighting/_fir_weighting.py
lines 83-133) for a weighting callable w.  userKeys are the keys of the
caller-supplied **options; the function's default_options contribute the key
"quad_opts" (line 123 copies the defaults, line 124 merges the caller's
options).  Line 127 forwards the merged option dictionary wholesale as keyword
arguments, ac = lambda t: idtft_hermitian(w, t, **opts), so every key of opts
is matched against the keyword parameters of idtft_hermitian; a key that is
not a parameter of the callee raises TypeError in Python. -/
def q0_weighting (quad : (ℝ → ℝ) → ℝ → ℝ → ℝ) (P : ℕ) (w : ℝ → ℂ)
    (userKeys : List String) : Except String (List ℝ) :=
  let optKeys := ("quad_opts" :: userKeys).dedup
  if ¬ (optKeys.all fun k => q0_weighting_allowed.contains k) then
    .error "ValueError: unrecognized option"
  else if ¬ (optKeys.all fun k => idtft_hermitian_kwargs.contains k) then
    .error "TypeError: idtft_hermitian() got an unexpected keyword argument"
  else
    .ok ((List.range (P + 1)).map fun t => idtft_hermitian quad w t 1)

/-- Python argument values, for modelling a positional call into the
deprecated alias q0_from_noise_weighting. -/
inductive PyArg where
  | nat : ℕ → PyArg
  | fn : (ℝ → ℂ) → PyArg
  | dict : List String → PyArg

/-- Embedding of the deprecated alias q0_from_noise_weighting(P, w, **options)
(src/pydsm/NTFdesign/weighting/_fir_weighting.py lines 517-520), as invoked
with an explicit positional-argument list: the signature has exactly two
positional parameters, so any call with a third positional argument raises
TypeError before the body runs; a well-formed call delegates to q0_weighting
(after a deprecation warning, which does not change the returned value). -/
def q0_from_noise_weighting_call (quad : (ℝ → ℝ) → ℝ → ℝ → ℝ)
    (args : List PyArg) (kwKeys : List String) : Except String (List ℝ) :=
  match args with
  | [PyArg.nat P, PyArg.fn w] => q0_weighting quad P w kwKeys
  | _ =>
    .error "TypeError: q0_from_noise_weighting() takes 2 positional arguments but 3 were given"

/-- Embedding of q0_from_filter_mag_response
(src/pydsm/NTFdesign/filter_based/_q0_from_filter.py lines 43-72): it builds
h_mag2 = lambda f: h_mag(f)**2 (line 71) and then calls
q0_from_noise_weighting(P, h_mag2, integrator_params) with three positional
arguments (line 72). -/
def q0_from_filter_mag_response (quad : (ℝ → ℝ) → ℝ → ℝ → ℝ) (P : ℕ)
    (h_mag : ℝ → ℝ) (integrator_params : List String) :
    Except String (List ℝ) :=
  q0_from_noise_weighting_call quad
    [PyArg.nat P, PyArg.fn fun f => ((h_mag f ^ 2 : ℝ) : ℂ),
     PyArg.dict integrator_params] []

/-- Filter descriptors: numerator/denominator coefficient pairs (2-element ba
tuples) or zeros/poles/gain triples (3-element zpk tuples), per spec
section 3. -/
inductive Filt where
  | ba : List ℂ → List ℂ → Filt
  | zpk : List ℂ → List ℂ → ℂ → Filt

/-- np.polyval: polynomial coefficients in descending powers, Horner
evaluation. -/
def polyvalC (p : List ℂ) (z : ℂ) : ℂ := p.foldl (fun acc c => acc * z + c) 0

/-- Modelled from the spec: evalTF (a pydsm.delsig transfer-function
evaluation utility, declared an out-of-scope polynomial/transfer-function
helper in spec sections 1 and 6) evaluates a ba filter as the ratio of its
two polynomials and a zpk filter as gain times the ratio of the products of
root factors. -/
def evalTF : Filt → ℂ → ℂ
  | .ba b a, z => polyvalC b z / polyvalC a z
  | .zpk zs ps k, z =>
      k * (zs.map fun zi => z - zi).prod / (ps.map fun pc => z - pc).prod

/-- The weighting a filter implicitly defines: the squared magnitude of its
transfer function on the unit circle, |evalTF(h, exp(2πif))|²
(src/pydsm/NTFdesign/weighting/_fir_weighting.py lines 77 and 121). -/
def filtWeight (h : Filt) (f : ℝ) : ℝ :=
  Complex.abs (evalTF h (Complex.exp (2 * π * f * Complex.I))) ^ 2

/-- An argument of mult_weightings: a weighting callable, or a 2-or-3-element
filter tuple. -/
inductive WInput where
  | func : (ℝ → ℝ) → WInput
  | filt : Filt → WInput

/-- An entry of the list wn built by the loop in mult_weightings.  For a tuple
input the stored lambda closes over the loop variable h BY REFERENCE (Python
late binding), so its value is determined only when the returned function is
called, after the loop has finished; such entries are recorded as fromCell.
Callable inputs are stored as-is (direct). -/
inductive WEntry where
  | fromCell : WEntry
  | direct : (ℝ → ℝ) → WEntry

/-- The loop of mult_weightings (src/pydsm/NTFdesign/weighting/_fir_weighting.py
lines 73-79): walks the inputs, assigning the shared variable h at each tuple
input and recording one wn entry per input.  Returns the entry list and the
final value of the cell h (its value when the returned closure runs). -/
def mwLoop : List WInput → Option Filt → List WEntry × Option Filt
  | [], h => ([], h)
  | .filt hf :: rest, _ =>
      let r := mwLoop rest (some hf)
      (WEntry.fromCell :: r.1, r.2)
  | .func w :: rest, h =>
      let r := mwLoop rest h
      (WEntry.direct w :: r.1, r.2)

/-- Embedding of mult_weightings (src/pydsm/NTFdesign/weighting/_fir_weighting.py
lines 54-80).  The returned closure (line 80) multiplies the wn entries
pointwise; every fromCell entry reads the shared variable h, which at call
time holds the LAST tuple input of the loop.  The none case of the cell is
unreachable: fromCell entries exist only if some tuple was seen, which sets
the cell. -/
def mult_weightings (ww : List WInput) : ℝ → ℝ := fun f =>
  let r := mwLoop ww none
  (r.1.map fun e =>
    match e with
    | .fromCell =>
        match r.2 with
        | some h => filtWeight h f
        | none => 0
    | .direct w => w f).prod

/-- The claim's reading of mult_weightings (spec section 4.2): each tuple
input contributes the squared-magnitude response of ITS OWN filter to the
pointwise product. -/
def mult_weightings_spec (ww : List WInput) : ℝ → ℝ := fun f =>
  (ww.map fun wi =>
    match wi with
    | .func w => w f
    | .filt h => filtWeight h f).prod

/-- The last tuple input of an argument list (the value the shared loop
variable h holds once the loop of mult_weightings has finished). -/
def lastFilt : List WInput → Option Filt
  | [] => none
  | .func _ :: rest => lastFilt rest
  | .filt hf :: rest => some ((lastFilt rest).getD hf)

/-- What mult_weightings actually computes: every tuple input contributes the
squared-magnitude response of the LAST tuple input. -/
def mult_weightings_actual (ww : List WInput) : ℝ → ℝ := fun f =>
  (ww.map fun wi =>
    match wi with
    | .func w => w f
    | .filt _ =>
        match lastFilt ww with
        | some h => filtWeight h f
        | none => 0).prod

/-- Normalization modes for the q0 vector (parameter normalize of the convex
synthesizers): "auto" divides by q0[0], None leaves q0 unscaled, a scalar
multiplies q0 by it. -/
inductive NormMode where
  | auto : NormMode
  | nonorm : NormMode
  | scale : ℝ → NormMode

/-- The normalization step of ntf_fir_from_q0 / ntf_hybrid_from_q0
(src/pydsm/NTFdesign/weighting/_fir_weighting.py lines 203-206 and
305-308). -/
def normalizeQ (q0 : List ℝ) : NormMode → List ℝ
  | .auto => q0.map fun v => v / q0.headD 0
  | .nonorm => q0
  | .scale c => q0.map fun v => v * c

/-- Modelled from the spec: padr (a pydsm padding utility, not under src/)
pads a vector on the right with the given value up to the requested length
("poles are the (possibly zero-padded) input pole list", spec section 4.3). -/
def padr (v : List ℂ) (n : ℕ) (c : ℂ) : List ℂ :=
  v ++ List.replicate (n - v.length) c

/-- Polynomial multiplication by the monic linear factor (X - r), with
coefficients listed in descending powers. -/
def polyMulLin (p : List ℂ) (r : ℂ) : List ℂ :=
  List.zipWith (fun a b => a - r * b) (p ++ [0]) (0 :: p)

/-- np.poly: the coefficient list (descending powers, leading 1) of the monic
polynomial with the given roots. -/
def polyFromRoots (rs : List ℂ) : List ℂ := rs.foldl polyMulLin [1]

/-- Option keys accepted by ntf_fir_from_q0 and ntf_hybrid_from_q0
(check_options calls on lines 193 and 301 of
src/pydsm/NTFdesign/weighting/_fir_weighting.py). -/
def ntf_from_q0_allowed : List String := ["cvxopt_opts", "show_progress", "fix_pos"]

/-- Embedding of ntf_fir_from_q0
(src/pydsm/NTFdesign/weighting/_fir_weighting.py lines 247-337).  The
semidefinite program of lines 304-335 — after normalisation, the Toeplitz
matrix, its eigendecomposition, the optional positive-semidefiniteness fix
and the Bounded-Real-Lemma LMI are built and handed to the cvxpy/cvxopt
interior-point solver — is abstracted as the parameter sdp, which receives
the normalised q0 and H_inf and returns the optimal br coefficient vector,
or none on solver failure (which Python surfaces as a fatal solver error).
The polynomial root extraction np.roots of line 337 is the parameter roots.
Both are external interfaces per spec section 6. -/
def ntf_fir_from_q0 (sdp : List ℝ → ℝ → Option (List ℝ))
    (roots : List ℝ → List ℂ) (q0 : List ℝ) (H_inf : ℝ) (normalize : NormMode)
    (userKeys : List String) : Except String (List ℂ × List ℂ × ℝ) :=
  if ¬ (userKeys.all fun k => ntf_from_q0_allowed.contains k) then
    .error "ValueError: unrecognized option"
  else
    let order := q0.length - 1
    let q0n := normalizeQ q0 normalize
    match sdp q0n H_inf with
    | none => .error "SolverFailure"
    | some br => .ok (roots (1 :: br), List.replicate order 0, 1)

/-- Embedding of ntf_hybrid_from_q0
(src/pydsm/NTFdesign/weighting/_fir_weighting.py lines 136-237).  Options are
checked first (line 193), then the pre-assigned pole count is validated
against order = len(q0) - 1 (lines 196-199) before anything else happens;
the poles are then zero-padded to length order (line 200) and the denominator
coefficients a_1..a_order are read off np.poly(poles)[1:].real (line 201).
The SDP build-and-solve of lines 203-235 is abstracted as the parameter sdp
(here also receiving the denominator coefficients ar), np.roots as roots. -/
def ntf_hybrid_from_q0 (sdp : List ℝ → ℝ → List ℝ → Option (List ℝ))
    (roots : List ℝ → List ℂ) (q0 : List ℝ) (H_inf : ℝ) (poles : List ℂ)
    (normalize : NormMode) (userKeys : List String) :
    Except String (List ℂ × List ℂ × ℝ) :=
  if ¬ (userKeys.all fun k => ntf_from_q0_allowed.contains k) then
    .error "ValueError: unrecognized option"
  else
    let order := q0.length - 1
    if poles.length > order then .error "ValueError: Too many poles provided"
    else
      let poles2 := padr poles order 0
      let ar := ((polyFromRoots poles2).drop 1).map Complex.re
      let q0n := normalizeQ q0 normalize
      match sdp q0n H_inf ar with
      | none => .error "SolverFailure"
      | some br => .ok (roots (1 :: br), poles2, 1)

/-- A trivial solver pair and root extractor used to instantiate the
convex-synthesis theorems at concrete inputs. -/
def sdpW1 : List ℝ → ℝ → Option (List ℝ) := fun _ _ => some [1 / 2]

/-- A trivial hybrid solver used to instantiate the convex-synthesis theorems
at concrete inputs. -/
def sdpW2 : List ℝ → ℝ → List ℝ → Option (List ℝ) := fun _ _ _ => some [1 / 3]

/-- A trivial root extractor used to instantiate the convex-synthesis theorems
at concrete inputs. -/
def rootsW : List ℝ → List ℂ := fun _ => []

/-- The opt parameter of synthesizeNTF1, after np.asarray coercion: a scalar
(0-dimensional array) selecting a zero-placement policy, or an explicit
array of NTF zeros. -/
inductive DsOpt where
  | scalar : ℝ → DsOpt
  | array : List ℂ → DsOpt

/-- np.size of the opt argument: 1 for a scalar, the length for an array. -/
def DsOpt.size : DsOpt → ℕ
  | .scalar _ => 1
  | .array l => l.length

/-- The comparison opt < 3 of line 200 of src/pydsm/delsig/_synthesizeNTF1.py.
It is only evaluated when opt.size == 1; for a 1-element complex array the
legacy numpy ordering compares real parts. -/
def DsOpt.lt3 : DsOpt → Prop
  | .scalar v => v < 3
  | .array l => (l.headD 0).re < 3

/-- The comparison opt == 4 of line 95 (elementwise for a 1-element array). -/
def DsOpt.eq4 : DsOpt → Prop
  | .scalar v => v = 4
  | .array l => l.headD 0 = 4

/-- The collaborators of synthesizeNTF1 that live outside the verified
sources and are declared external interfaces by the spec (sections 1 and 6):
ds_optzeros (classical optimal zero placement: order and alternation flag to
zero positions), evalTF (transfer-function evaluation of the candidate zpk
triple at a point), cplxpair (conjugate-pair canonicalization, a reordering),
lbfgs (the bounded gradient-free optimizer fmin_l_bfgs_b with the
ds_synNTFobj1 objective: receives x0 and the objective context p, osr, f0 and
returns the refined x), and is_negligible. -/
structure ExtFns where
  ds_optzeros : ℕ → ℝ → List ℝ
  evalTF : List ℂ × List ℂ × ℝ → ℂ → ℂ
  cplxpair : List ℂ → List ℂ
  lbfgs : List ℝ → List ℂ → ℝ → ℝ → List ℝ
  is_negligible : ℝ → Bool

/-- Truncation toward zero of a real number, as an integer-valued real. -/
def pytrunc (q : ℝ) : ℝ := if 0 ≤ q then (⌊q⌋ : ℝ) else (⌈q⌉ : ℝ)

/-- np.fmod: remainder with the sign of the dividend (truncated division). -/
def pyfmod (a b : ℝ) : ℝ := a - b * pytrunc (a / b)

/-- The zero-placement phase of synthesizeNTF1
(src/pydsm/delsig/_synthesizeNTF1.py lines 76-91), operating on the (already
halved, for bandpass) order.  For a scalar opt the zero angles are all zero
(opt = 0) or dw times the classical spacing ds_optzeros(order,
1 + fmod(opt-1, 2)); an empty angle list raises RuntimeError; a bandpass
design (f0 ≠ 0) doubles the order back and replicates the sorted, f0-shifted
angles to ±; finally angles map to unit-circle points exp(i·angle).  An
explicit array opt is used as the zeros directly, leaving the order as is
(line 90-91 performs no doubling).  Returns the zeros and the updated
order. -/
def zeroPlacement (ext : ExtFns) (order : ℕ) (dw : ℝ) (opt : DsOpt)
    (f0 : ℝ) : Except String (List ℂ × ℕ) :=
  match opt with
  | .scalar v =>
      let zAng : List ℝ :=
        if v = 0 then List.replicate order 0
        else (ext.ds_optzeros order (1 + pyfmod (v - 1) 2)).map fun a => dw * a
      if zAng.length = 0 then .error "RuntimeError: Cannot synthesize NTF zeros"
      else if f0 ≠ 0 then
        let sorted := (zAng.insertionSort (· ≤ ·)).map fun a => a + 2 * π * f0
        let both := (sorted.map fun a => [a, -a]).flatten
        .ok (both.map fun (a : ℝ) => Complex.exp (Complex.I * (a : ℂ)), order * 2)
      else
        .ok (zAng.map fun (a : ℝ) => Complex.exp (Complex.I * (a : ℂ)), order)
  | .array l => .ok (l, order)

/-- Lines 93-97: the free zero parameters x0 — the angles of the
positive-angle zeros, shifted by 2πf0 and rescaled by osr/π; for opt == 4
with f0 ≠ 0 the negligible entries (zeros kept at f0) are removed from the
optimization. -/
def freeZeroParams (ext : ExtFns) (z : List ℂ) (opt : DsOpt) (osr f0 : ℝ) :
    List ℝ :=
  let x0 := (z.filter fun c => decide (0 < c.arg)).map fun c =>
    (c.arg - 2 * π * f0) * osr / π
  if opt.size = 1 ∧ opt.eq4 ∧ f0 ≠ 0 then
    x0.filter fun t => ! ext.is_negligible t
  else x0

/-- np.sqrt on a complex number: the principal square root, modelled as the
principal power c^(1/2). -/
def csqrt (c : ℂ) : ℂ := c ^ ((1 : ℂ) / 2)

/-- Lines 130-131 and 172-173: a candidate pole of magnitude above 1 is
reflected inside the unit circle, p ↦ 1/p. -/
def reflectPole (c : ℂ) : ℂ := if 1 < Complex.abs c then 1 / c else c

/-- Lines 125-128: the closed-form lowpass candidate poles for shape
parameter x: mb2 = 1 - x^(2/order)/2 · e^{iw}, p = mb2 - sqrt(mb2² - 1), at
the angles w = (2n+1)π/order for n = 1..order. -/
def lowpassCandidate (order : ℕ) (x : ℝ) : List ℂ :=
  let me2 : ℝ := -(1 / 2) * x ^ ((2 : ℝ) / (order : ℝ))
  (List.range order).map fun (n : ℕ) =>
    let w : ℝ := (2 * ((n : ℕ) + 1 : ℝ) + 1) * π / (order : ℝ)
    let mb2 : ℂ := 1 + (me2 : ℂ) * Complex.exp (Complex.I * (w : ℂ))
    mb2 - csqrt (mb2 ^ 2 - 1)

/-- Lines 167-170: the closed-form bandpass candidate poles for shape
parameter x: mb2 = cos(2πf0) + x^(2/order)/2 · e^{iw} at the angles
w = (2n+1)π/order for n = 0..order-1. -/
def bandpassCandidate (order : ℕ) (f0 : ℝ) (x : ℝ) : List ℂ :=
  let e2 : ℝ := (1 / 2) * x ^ ((2 : ℝ) / (order : ℝ))
  (List.range order).map fun (n : ℕ) =>
    let w : ℝ := (2 * ((n : ℕ) : ℝ) + 1) * π / (order : ℝ)
    let mb2 : ℂ := ((Real.cos (2 * π * f0) : ℝ) : ℂ) +
      (e2 : ℂ) * Complex.exp (Complex.I * (w : ℂ))
    mb2 - csqrt (mb2 ^ 2 - 1)

/-- Warning text of lines 118-120 (requested H_inf unachievable, lowpass). -/
def warnHinfLP : String :=
  "Unable to achieve specified Hinf, setting all NTF poles to zero"

/-- Warning text of lines 150-152 and 190-192 (secant divergence). -/
def warnHinfDiv : String :=
  "Unable to achieve specified Hinf, setting all NTF poles to zero."

/-- Warning text of lines 156-157 and 196-197 (pole iteration cap). -/
def warnIterLimit : String := "Iteration limit exceeded."

/-- How a run of the pole-placement sub-iteration ended: still running (fuel
exhausted at the iteration cap), converged (|f| or |delta_x| below 1e-10), or
diverged (x grew past 1e6). -/
inductive ExitKind where
  | running : ExitKind
  | converged : ExitKind
  | diverged : ExitKind
  deriving DecidableEq

/-- State of the pole-placement sub-iteration: the shape parameter x, the
last secant step dx, the previous gain error fprev, the current candidate
poles, the accumulated warnings and how the loop ended. -/
structure PoleIter where
  x : ℝ
  dx : ℝ
  fprev : ℝ
  p : List ℂ
  warns : List String
  exit : ExitKind

/-- The pole-placement sub-iteration (lines 124-157 lowpass, 166-197
bandpass), parameterized by the candidate-pole map cand.  fuel counts the
remaining iterations (the loop starts with fuel = 100, itn = 1; the
itn == Hinf_itn_limit warning of the Python for-loop fires when fuel runs
out).  Each pass builds the candidate poles from x, reflects them into the
unit disc, canonically orders them with cplxpair, computes the gain error f
of the candidate NTF at z_inf, makes a secant step (first step -f/100), keeps
x positive (else x·0.1), and exits on convergence (|f| < 1e-10 or
|delta_x| < 1e-10) or divergence (x > 1e6: warn and fall back to all-origin
poles). -/
def poleLoopGo (ext : ExtFns) (cand : ℝ → List ℂ) (z : List ℂ) (z_inf : ℂ)
    (H_inf : ℝ) (order : ℕ) : ℕ → ℕ → PoleIter → PoleIter
  | 0, _, s => s
  | fuel + 1, itn, s =>
      let p := ext.cplxpair ((cand s.x).map reflectPole)
      let f := (ext.evalTF (z, p, 1) z_inf).re - H_inf
      let dx := if itn = 1 then -f / 100 else -f * s.dx / (f - s.fprev)
      let xplus := s.x + dx
      let x := if 0 < xplus then xplus else s.x * 0.1
      let s1 : PoleIter := ⟨x, dx, f, p, s.warns, s.exit⟩
      if |f| < 1e-10 ∨ |dx| < 1e-10 then { s1 with exit := ExitKind.converged }
      else if 1e6 < x then
        { s1 with p := List.replicate order 0,
                  warns := s1.warns ++ [warnHinfDiv], exit := ExitKind.diverged }
      else if fuel = 0 then { s1 with warns := s1.warns ++ [warnIterLimit] }
      else poleLoopGo ext cand z z_inf H_inf order fuel (itn + 1) s1

/-- State threaded through the outer H_inf iteration: current zeros and
poles, the free zero parameters x0, the persistent fprev of the secant
iteration, accumulated warnings, and the number of outer passes executed. -/
structure OuterState where
  z : List ℂ
  p : List ℂ
  x0 : List ℝ
  fprev : ℝ
  warns : List String
  passes : ℕ

/-- Lines 109-112 and 161-164: the evaluation point for the peak gain,
z_inf = 1 for f0 > 0.25 and z_inf = -1 otherwise. -/
def zinfOf (f0 : ℝ) : ℂ := if 1 / 4 < f0 then 1 else -1

/-- The pole-placement part of one outer pass (lines 108-197): for lowpass
(f0 = 0), either the H_inf ≥ 2^order fallback — warn and set all poles to
the origin — or the lowpass secant sub-iteration from the starting guess
0.3^(order-1); for bandpass, the bandpass secant sub-iteration from
0.3^(order//2-1). -/
def polePlacementPass (ext : ExtFns) (order : ℕ) (H_inf f0 : ℝ)
    (s : OuterState) : OuterState :=
  if f0 = 0 then
    if (2 : ℝ) ^ order ≤ H_inf then
      { s with p := List.replicate order 0, warns := s.warns ++ [warnHinfLP] }
    else
      let r := poleLoopGo ext (lowpassCandidate order) s.z (zinfOf f0) H_inf
        order 100 1
        ⟨(0.3 : ℝ) ^ ((order : ℤ) - 1), 0, s.fprev, s.p, s.warns, ExitKind.running⟩
      { s with p := r.p, fprev := r.fprev, warns := r.warns }
  else
    let r := poleLoopGo ext (bandpassCandidate order f0) s.z (zinfOf f0) H_inf
      order 100 1
      ⟨(0.3 : ℝ) ^ (((order / 2 : ℕ) : ℤ) - 1), 0, s.fprev, s.p, s.warns,
        ExitKind.running⟩
    { s with p := r.p, fprev := r.fprev, warns := r.warns }

/-- The pole-placement secant loop as run by the first outer pass of
synthesizeNTF1 (lines 124-157 lowpass, 166-197 bandpass): lowpass candidates
from the starting guess 0.3^(order-1) for f0 = 0 (the branch taken when
H_inf < 2^order), bandpass candidates from 0.3^(order//2-1) otherwise, in
both cases with fprev = 0, all-origin poles and no warnings accumulated
yet — the state the outer loop starts from. -/
def firstPassPoleLoop (ext : ExtFns) (H_inf f0 : ℝ) (ord : ℕ)
    (z : List ℂ) : PoleIter :=
  if f0 = 0 then
    poleLoopGo ext (lowpassCandidate ord) z (zinfOf f0) H_inf ord 100 1
      ⟨(0.3 : ℝ) ^ ((ord : ℤ) - 1), 0, 0, List.replicate ord 0, [],
        ExitKind.running⟩
  else
    poleLoopGo ext (bandpassCandidate ord f0) z (zinfOf f0) H_inf ord 100 1
      ⟨(0.3 : ℝ) ^ (((ord / 2 : ℕ) : ℤ) - 1), 0, 0, List.replicate ord 0,
        [], ExitKind.running⟩

/-- Line 200: the condition under which zero optimization is skipped and the
outer loop exits after the current pass. -/
def noOptCond (opt : DsOpt) (x0 : List ℝ) : Prop :=
  (opt.size = 1 ∧ opt.lt3) ∨ 1 < opt.size ∨ x0.length < 1

/-- Modelled from the spec: padl (pydsm padding utility, not under src/) pads
a vector on the left with the given value up to the requested length,
the left-hand counterpart of padr ("reconstruct the full zero set by
symmetry (conjugates, and band replication for bandpass)", spec
section 4.4 b). -/
def padl (v : List ℂ) (n : ℕ) (c : ℂ) : List ℂ :=
  List.replicate (n - v.length) c ++ v

/-- The zero-optimization rebuild (lines 214-224): run the bounded optimizer
on x0 (the box bounds and the ds_synNTFobj1 objective are part of the
abstracted optimizer), map the refined parameters to unit-circle zeros at
f0 + 0.5/osr·x, left-pad with the f0 zero up to len(p)/2 (Python-2 integer
division) for bandpass, append the conjugates, and left-pad with 1 up to
len(p) for lowpass.  Returns the refined x and the rebuilt zero list. -/
def reoptZ (ext : ExtFns) (osr f0 : ℝ) (x0 : List ℝ) (p : List ℂ) :
    List ℝ × List ℂ :=
  let xNew := ext.lbfgs x0 p osr f0
  let z1 := xNew.map fun t =>
    Complex.exp (2 * (π : ℂ) * ((f0 + 0.5 / osr * t : ℝ) : ℂ) * Complex.I)
  let z2 := if 0 < f0 then
      padl z1 (p.length / 2) (Complex.exp (2 * (π : ℂ) * ((f0 : ℝ) : ℂ) * Complex.I))
    else z1
  let z3 := z2 ++ z2.map (starRingEnd ℂ)
  let z4 := if f0 = 0 then padl z3 p.length 1 else z3
  (xNew, z4)

/-- Lines 214-228: one zero-optimization step.  It stops the outer iteration
(sets opt_iteration to 0) when the realized peak gain of the rebuilt zeros
with the current poles matches H_inf within ftol = 1e-10. -/
def zeroOptStep (ext : ExtFns) (osr H_inf f0 : ℝ) (s : OuterState) :
    OuterState × Bool :=
  let r := reoptZ ext osr f0 s.x0 s.p
  let s2 := { s with z := r.2, x0 := r.1 }
  if |(ext.evalTF (r.2, s.p, 1) (zinfOf f0)).re - H_inf| < 1e-10 then (s2, true)
  else (s2, false)

/-- One pass of the outer H_inf iteration (the while body, lines 105-228):
pole placement, then either loop exit (no zero optimization: line 200) or a
zero-optimization step.  The Bool is true when opt_iteration is set to 0. -/
def outerBody (ext : ExtFns) (osr : ℝ) (opt : DsOpt) (H_inf f0 : ℝ)
    (order : ℕ) (s : OuterState) : OuterState × Bool :=
  let s1 := polePlacementPass ext order H_inf f0 s
  if noOptCond opt s1.x0 then (s1, true)
  else zeroOptStep ext osr H_inf f0 s1

/-- The outer while loop (lines 104-228): opt_iteration starts at 5 and each
body either sets it to 0 or decrements it.  passes counts executed bodies. -/
def outerLoop (ext : ExtFns) (osr : ℝ) (opt : DsOpt) (H_inf f0 : ℝ)
    (order : ℕ) : ℕ → OuterState → OuterState
  | 0, s => s
  | fuel + 1, s =>
      let r := outerBody ext osr opt H_inf f0 order s
      let s2 := { r.1 with passes := r.1.passes + 1 }
      if r.2 then s2 else outerLoop ext osr opt H_inf f0 order fuel s2

/-- The result of synthesizeNTF1: the zpk triple, plus instrumentation — the
warnings emitted via warn() and the number of outer passes executed. -/
structure NTFResult where
  z : List ℂ
  p : List ℂ
  k : ℝ
  warns : List String
  passes : ℕ

/-- Embedding of synthesizeNTF1 (src/pydsm/delsig/_synthesizeNTF1.py lines
67-230): halve the order for bandpass (f0 ≠ 0), place the zeros (possibly
restoring the order), derive the free zero parameters, run the outer H_inf
iteration from all-origin poles and fprev = 0, and return the
conjugate-paired zeros, the poles and gain k = 1. -/
def synthesizeNTF1 (ext : ExtFns) (order0 : ℕ) (osr : ℝ) (opt : DsOpt)
    (H_inf f0 : ℝ) : Except String NTFResult :=
  let order1 := if f0 ≠ 0 then order0 / 2 else order0
  let dw := if f0 ≠ 0 then π / (2 * osr) else π / osr
  match zeroPlacement ext order1 dw opt f0 with
  | .error e => .error e
  | .ok zo =>
      let x0 := freeZeroParams ext zo.1 opt osr f0
      let sF := outerLoop ext osr opt H_inf f0 zo.2 5
        ⟨zo.1, List.replicate zo.2 0, x0, 0, [], 0⟩
      .ok ⟨ext.cplxpair sF.z, sF.p, 1, sF.warns, sF.passes⟩

/-- The pipeline of synthesizeNTF1 after a successful zero placement: the
outer loop run from all-origin poles, empty warnings and fprev = 0. -/
def synthRun (ext : ExtFns) (osr : ℝ) (opt : DsOpt) (H_inf f0 : ℝ)
    (z : List ℂ) (ord : ℕ) : OuterState :=
  outerLoop ext osr opt H_inf f0 ord 5
    ⟨z, List.replicate ord 0, freeZeroParams ext z opt osr f0, 0, [], 0⟩

/-- Concrete external functions — identity cplxpair (a permutation), zero
evalTF, all-zero optimal-zero placement, identity optimizer — used to
instantiate the synthesizeNTF1 theorems at concrete inputs. -/
def extW : ExtFns :=
  ⟨fun n _ => List.replicate n 0, fun _ _ => 0, id, fun x _ _ _ => x,
   fun _ => false⟩

/-- External functions whose transfer-function evaluation is the huge
negative constant -100000000, driving the first secant step past the
divergence bound x > 1e6. -/
def extD : ExtFns :=
  ⟨fun n _ => List.replicate n 0, fun _ _ => ((-100000000 : ℝ) : ℂ), id,
   fun x _ _ _ => x, fun _ => false⟩

/-- External functions whose transfer-function evaluation is constantly 2,
so that the realized peak gain matches H_inf = 2 exactly. -/
def extC8 : ExtFns :=
  ⟨fun n _ => List.replicate n 0, fun _ _ => ((2 : ℝ) : ℂ), id,
   fun x _ _ _ => x, fun _ => false⟩

/-- A concrete outer state with one free zero parameter, for instantiating
the early-stopping clause of the outer iteration. -/
def sW : OuterState := ⟨[], [], [1], 0, [], 0⟩

/-- The pole-vector length of a synthesizeNTF1 result (none on error). -/
def polesLen (e : Except String NTFResult) : Option ℕ :=
  e.toOption.map fun r => r.p.length

theorem mwLoop_cell (ww : List WInput) (h0 : Option Filt) :
    (mwLoop ww h0).2 = match lastFilt ww with
      | some h => some h
      | none => h0 := by
  induction ww generalizing h0 with
  | nil => rfl
  | cons wi rest ih =>
      cases wi with
      | func w =>
          simp only [mwLoop, lastFilt, ih]
      | filt hf =>
          simp only [mwLoop, lastFilt, ih]
          cases lastFilt rest <;> rfl

theorem mwLoop_eval (ww : List WInput) (h0 hv : Option Filt) (f : ℝ) :
    ((mwLoop ww h0).1.map fun e =>
      match e with
      | WEntry.fromCell =>
          match hv with
          | some h => filtWeight h f
          | none => 0
      | WEntry.direct w => w f).prod =
    (ww.map fun wi =>
      match wi with
      | WInput.func w => w f
      | WInput.filt _ =>
          match hv with
          | some h => filtWeight h f
          | none => 0).prod := by
  induction ww generalizing h0 with
  | nil => rfl
  | cons wi rest ih =>
      cases wi with
      | func w => simp only [mwLoop, List.map_cons, List.prod_cons, ih]
      | filt hf => simp only [mwLoop, List.map_cons, List.prod_cons, ih]

/-- C5 counterexample: for the two distinct 3-element filter tuples
([], [], 2) and ([], [], 1), the function returned by mult_weightings gives 1
at f = 0, while the claimed pointwise product of the inputs' own
squared-magnitude responses is 4: Python's late-binding closures make every
tuple-derived factor use the last tuple. -/
theorem c5_counterexample_two_tuples :
    mult_weightings
        [WInput.filt (Filt.zpk [] [] 2), WInput.filt (Filt.zpk [] [] 1)] 0 = 1 ∧
    mult_weightings_spec
        [WInput.filt (Filt.zpk [] [] 2), WInput.filt (Filt.zpk [] [] 1)] 0 = 4 ∧
    (1 : ℝ) ≠ 4 := by
  refine ⟨?_, ?_, by norm_num⟩ <;>
    norm_num [mult_weightings, mult_weightings_spec, mwLoop, filtWeight, evalTF,
      Complex.abs_two]

/-- C5 (amended): the function returned by mult_weightings multiplies, at each
frequency, the callables' values and — for every tuple input — the
squared-magnitude response |evalTF(·, e^{2πif})|² of the LAST tuple input
(Python late binding); with at most one tuple input this coincides with the
claimed per-input product, and on two constant-1 weighting callables the
result is constantly 1. -/
theorem c5_mult_weightings_last_tuple :
    (∀ (ww : List WInput) (f : ℝ),
        mult_weightings ww f = mult_weightings_actual ww f) ∧
    (∀ f : ℝ,
        mult_weightings [WInput.func fun _ => 1, WInput.func fun _ => 1] f = 1) := by
  constructor
  · intro ww f
    simp only [mult_weightings, mult_weightings_actual]
    rw [mwLoop_cell ww none, mwLoop_eval ww none]
    cases lastFilt ww <;> rfl
  · intro f
    norm_num [mult_weightings, mwLoop]

/-- C2: whenever the solver succeeds, ntf_fir_from_q0 returns the triple whose
zeros are the roots of the polynomial [1, b_1..b_order] taken from the
optimizer's solution, whose pole vector is exactly `order` zeros and whose
gain is 1; ntf_hybrid_from_q0 returns the same except that the pole vector is
the caller's pre-assigned pole list padded with zeros up to `order`. -/
theorem c2_ntf_from_q0_output_shape
    (sdpF : List ℝ → ℝ → Option (List ℝ))
    (sdpH : List ℝ → ℝ → List ℝ → Option (List ℝ))
    (roots : List ℝ → List ℂ) (q0 : List ℝ) (H_inf : ℝ) (poles : List ℂ)
    (normalize : NormMode) (br brh : List ℝ)
    (hF : sdpF (normalizeQ q0 normalize) H_inf = some br)
    (hp : poles.length ≤ q0.length - 1)
    (hH : sdpH (normalizeQ q0 normalize) H_inf
        (((polyFromRoots (padr poles (q0.length - 1) 0)).drop 1).map Complex.re) =
        some brh) :
    ntf_fir_from_q0 sdpF roots q0 H_inf normalize [] =
      .ok (roots (1 :: br), List.replicate (q0.length - 1) 0, 1) ∧
    ntf_hybrid_from_q0 sdpH roots q0 H_inf poles normalize [] =
      .ok (roots (1 :: brh), padr poles (q0.length - 1) 0, 1) := by
  constructor
  · simp only [ntf_fir_from_q0]
    rw [if_neg (by simp), hF]
  · simp only [ntf_hybrid_from_q0]
    rw [if_neg (by simp), if_neg (Nat.not_lt.mpr hp), hH]

theorem c2_witness :
    ntf_fir_from_q0 sdpW1 rootsW [1, 0] (3 / 2) NormMode.auto [] =
      .ok (rootsW (1 :: [1 / 2]), List.replicate 1 0, 1) ∧
    ntf_hybrid_from_q0 sdpW2 rootsW [1, 0] (3 / 2) [] NormMode.auto [] =
      .ok (rootsW (1 :: [1 / 3]), padr [] 1 0, 1) :=
  c2_ntf_from_q0_output_shape sdpW1 sdpW2 rootsW [1, 0] (3 / 2) []
    NormMode.auto [1 / 2] [1 / 3] rfl (by decide) rfl

/-- C6: with more pre-assigned poles than the NTF order, ntf_hybrid_from_q0
fails with the pole-count ValueError for every solver (hence before any
optimization problem is built or solved); with at most `order` poles it never
fails on this account. -/
theorem c6_hybrid_pole_count_check
    (sdp : List ℝ → ℝ → List ℝ → Option (List ℝ)) (roots : List ℝ → List ℂ)
    (q0 : List ℝ) (H_inf : ℝ) (poles : List ℂ) (normalize : NormMode)
    (userKeys : List String)
    (hkeys : userKeys.all fun k => ntf_from_q0_allowed.contains k) :
    (poles.length > q0.length - 1 →
      ntf_hybrid_from_q0 sdp roots q0 H_inf poles normalize userKeys =
        .error "ValueError: Too many poles provided") ∧
    (poles.length ≤ q0.length - 1 →
      ntf_hybrid_from_q0 sdp roots q0 H_inf poles normalize userKeys ≠
        .error "ValueError: Too many poles provided") := by
  constructor
  · intro hgt
    simp only [ntf_hybrid_from_q0]
    rw [if_neg (by simpa using hkeys), if_pos hgt]
  · intro hle
    simp only [ntf_hybrid_from_q0]
    rw [if_neg (by simpa using hkeys), if_neg (Nat.not_lt.mpr hle)]
    cases hv : sdp (normalizeQ q0 normalize) H_inf
        (((polyFromRoots (padr poles (q0.length - 1) 0)).drop 1).map Complex.re) with
    | none => simp
    | some br => simp

theorem c6_witness :
    ntf_hybrid_from_q0 sdpW2 rootsW [1, 0] (3 / 2) [0, 0] NormMode.auto [] =
      .error "ValueError: Too many poles provided" ∧
    ntf_hybrid_from_q0 sdpW2 rootsW [1, 0] (3 / 2) [] NormMode.auto [] ≠
      .error "ValueError: Too many poles provided" :=
  ⟨(c6_hybrid_pole_count_check sdpW2 rootsW [1, 0] (3 / 2) [0, 0]
      NormMode.auto [] (by decide)).1 (by decide),
   (c6_hybrid_pole_count_check sdpW2 rootsW [1, 0] (3 / 2) []
      NormMode.auto [] (by decide)).2 (by decide)⟩

theorem synthesizeNTF1_eq (ext : ExtFns) (order0 : ℕ) (osr : ℝ) (opt : DsOpt)
    (H_inf f0 : ℝ) (z : List ℂ) (ord : ℕ)
    (hz : zeroPlacement ext (if f0 ≠ 0 then order0 / 2 else order0)
      (if f0 ≠ 0 then π / (2 * osr) else π / osr) opt f0 = .ok (z, ord)) :
    synthesizeNTF1 ext order0 osr opt H_inf f0 =
      .ok ⟨ext.cplxpair (synthRun ext osr opt H_inf f0 z ord).z,
           (synthRun ext osr opt H_inf f0 z ord).p, 1,
           (synthRun ext osr opt H_inf f0 z ord).warns,
           (synthRun ext osr opt H_inf f0 z ord).passes⟩ := by
  simp only [synthesizeNTF1]
  rw [hz]
  rfl

theorem lowpassCandidate_length (order : ℕ) (x : ℝ) :
    (lowpassCandidate order x).length = order := by
  unfold lowpassCandidate
  rw [List.length_map, List.length_range]

theorem bandpassCandidate_length (order : ℕ) (f0 x : ℝ) :
    (bandpassCandidate order f0 x).length = order := by
  unfold bandpassCandidate
  rw [List.length_map, List.length_range]

theorem reflectPole_abs_le_one (c : ℂ) : Complex.abs (reflectPole c) ≤ 1 := by
  unfold reflectPole
  split
  · rename_i h
    rw [map_div₀, map_one, div_le_one (lt_trans zero_lt_one h)]
    exact le_of_lt h
  · rename_i h
    exact le_of_not_lt h

theorem poleLoopGo_length (ext : ExtFns) (cand : ℝ → List ℂ) (z : List ℂ)
    (z_inf : ℂ) (H_inf : ℝ) (order : ℕ)
    (hcp : ∀ l, (ext.cplxpair l).Perm l)
    (hcand : ∀ x, (cand x).length = order) :
    ∀ fuel itn s, s.p.length = order →
      (poleLoopGo ext cand z z_inf H_inf order fuel itn s).p.length = order := by
  intro fuel
  induction fuel with
  | zero => intro itn s hs; simpa only [poleLoopGo] using hs
  | succ n ih =>
      intro itn s hs
      have hplen : (ext.cplxpair ((cand s.x).map reflectPole)).length = order := by
        rw [(hcp _).length_eq, List.length_map, hcand]
      simp only [poleLoopGo]
      repeat' split
      all_goals first
        | exact hplen
        | exact List.length_replicate order 0
        | exact ih _ _ hplen

theorem poleLoopGo_abs (ext : ExtFns) (cand : ℝ → List ℂ) (z : List ℂ)
    (z_inf : ℂ) (H_inf : ℝ) (order : ℕ)
    (hcp : ∀ l, (ext.cplxpair l).Perm l) :
    ∀ fuel itn s, (∀ q ∈ s.p, Complex.abs q ≤ 1) →
      ∀ q ∈ (poleLoopGo ext cand z z_inf H_inf order fuel itn s).p,
        Complex.abs q ≤ 1 := by
  intro fuel
  induction fuel with
  | zero => intro itn s hs; simpa only [poleLoopGo] using hs
  | succ n ih =>
      intro itn s hs
      have hpq : ∀ q ∈ ext.cplxpair ((cand s.x).map reflectPole),
          Complex.abs q ≤ 1 := by
        intro q hq
        rw [(hcp _).mem_iff] at hq
        obtain ⟨c, _, rfl⟩ := List.mem_map.mp hq
        exact reflectPole_abs_le_one c
      simp only [poleLoopGo]
      repeat' split
      all_goals first
        | exact hpq
        | (intro q hq
           rw [List.eq_of_mem_replicate hq]
           simp)
        | exact ih _ _ hpq

theorem poleLoopGo_warns_mono (ext : ExtFns) (cand : ℝ → List ℂ) (z : List ℂ)
    (z_inf : ℂ) (H_inf : ℝ) (order : ℕ) :
    ∀ fuel itn s w, w ∈ s.warns →
      w ∈ (poleLoopGo ext cand z z_inf H_inf order fuel itn s).warns := by
  intro fuel
  induction fuel with
  | zero => intro itn s w h; simpa only [poleLoopGo] using h
  | succ n ih =>
      intro itn s w h
      simp only [poleLoopGo]
      repeat' split
      all_goals first
        | exact h
        | exact List.mem_append_left _ h
        | exact ih _ _ _ h

theorem poleLoopGo_diverged (ext : ExtFns) (cand : ℝ → List ℂ) (z : List ℂ)
    (z_inf : ℂ) (H_inf : ℝ) (order : ℕ) :
    ∀ fuel itn s, s.exit = ExitKind.running →
      (poleLoopGo ext cand z z_inf H_inf order fuel itn s).exit =
        ExitKind.diverged →
      (poleLoopGo ext cand z z_inf H_inf order fuel itn s).p =
          List.replicate order 0 ∧
        warnHinfDiv ∈
          (poleLoopGo ext cand z z_inf H_inf order fuel itn s).warns := by
  intro fuel
  induction fuel with
  | zero =>
      intro itn s hrun hdiv
      simp only [poleLoopGo] at hdiv
      exact absurd (hrun.symm.trans hdiv)
        (fun hc => ExitKind.noConfusion hc)
  | succ n ih =>
      intro itn s hrun
      simp only [poleLoopGo]
      repeat' split
      all_goals first
        | (intro hx
           exact absurd hx (fun hc => ExitKind.noConfusion hc))
        | (intro hx
           exact absurd (hrun.symm.trans hx) (fun hc => ExitKind.noConfusion hc))
        | (intro _
           exact ⟨rfl, by simp⟩)
        | exact ih _ _ hrun

theorem poleLoopGo_diverges_step (ext : ExtFns) (cand : ℝ → List ℂ)
    (z : List ℂ) (z_inf : ℂ) (H_inf : ℝ) (order : ℕ) (fuel itn : ℕ)
    (s : PoleIter) (fv : ℝ)
    (hfv : (ext.evalTF (z, ext.cplxpair ((cand s.x).map reflectPole), 1)
      z_inf).re - H_inf = fv)
    (h1 : itn = 1)
    (hc1 : ¬(|fv| < 1e-10 ∨ |-fv / 100| < 1e-10))
    (hxp : 0 < s.x + -fv / 100)
    (hx6 : 1e6 < s.x + -fv / 100) :
    (poleLoopGo ext cand z z_inf H_inf order (fuel + 1) itn s).exit =
      ExitKind.diverged := by
  subst h1
  subst hfv
  simp only [poleLoopGo, if_true]
  rw [if_pos hxp, if_neg hc1, if_pos hx6]

theorem polePlacementPass_x0 (ext : ExtFns) (order : ℕ) (H_inf f0 : ℝ)
    (s : OuterState) :
    (polePlacementPass ext order H_inf f0 s).x0 = s.x0 := by
  unfold polePlacementPass
  repeat' split
  all_goals rfl

theorem polePlacementPass_passes (ext : ExtFns) (order : ℕ) (H_inf f0 : ℝ)
    (s : OuterState) :
    (polePlacementPass ext order H_inf f0 s).passes = s.passes := by
  unfold polePlacementPass
  repeat' split
  all_goals rfl

theorem polePlacementPass_length (ext : ExtFns) (order : ℕ) (H_inf f0 : ℝ)
    (s : OuterState) (hcp : ∀ l, (ext.cplxpair l).Perm l)
    (hs : s.p.length = order) :
    (polePlacementPass ext order H_inf f0 s).p.length = order := by
  unfold polePlacementPass
  repeat' split
  all_goals first
    | exact List.length_replicate order 0
    | exact poleLoopGo_length ext _ _ _ _ _ hcp
        (fun x => lowpassCandidate_length order x) _ _ _ hs
    | exact poleLoopGo_length ext _ _ _ _ _ hcp
        (fun x => bandpassCandidate_length order f0 x) _ _ _ hs

theorem polePlacementPass_abs (ext : ExtFns) (order : ℕ) (H_inf f0 : ℝ)
    (s : OuterState) (hcp : ∀ l, (ext.cplxpair l).Perm l)
    (hs : ∀ q ∈ s.p, Complex.abs q ≤ 1) :
    ∀ q ∈ (polePlacementPass ext order H_inf f0 s).p, Complex.abs q ≤ 1 := by
  unfold polePlacementPass
  repeat' split
  all_goals first
    | (intro q hq
       rw [List.eq_of_mem_replicate hq]
       simp)
    | exact poleLoopGo_abs ext _ _ _ _ _ hcp _ _ _ hs

theorem polePlacementPass_warns_mono (ext : ExtFns) (order : ℕ) (H_inf f0 : ℝ)
    (s : OuterState) (w : String) (h : w ∈ s.warns) :
    w ∈ (polePlacementPass ext order H_inf f0 s).warns := by
  unfold polePlacementPass
  repeat' split
  all_goals first
    | exact List.mem_append_left _ h
    | exact poleLoopGo_warns_mono ext _ _ _ _ _ _ _ _ _ h

theorem zeroOptStep_p (ext : ExtFns) (osr H_inf f0 : ℝ) (s : OuterState) :
    ((zeroOptStep ext osr H_inf f0 s).1).p = s.p := by
  simp only [zeroOptStep]
  split <;> rfl

theorem zeroOptStep_warns (ext : ExtFns) (osr H_inf f0 : ℝ) (s : OuterState) :
    ((zeroOptStep ext osr H_inf f0 s).1).warns = s.warns := by
  simp only [zeroOptStep]
  split <;> rfl

theorem zeroOptStep_passes (ext : ExtFns) (osr H_inf f0 : ℝ) (s : OuterState) :
    ((zeroOptStep ext osr H_inf f0 s).1).passes = s.passes := by
  simp only [zeroOptStep]
  split <;> rfl

theorem outerBody_passes (ext : ExtFns) (osr : ℝ) (opt : DsOpt) (H_inf f0 : ℝ)
    (order : ℕ) (s : OuterState) :
    ((outerBody ext osr opt H_inf f0 order s).1).passes = s.passes := by
  simp only [outerBody]
  split
  · exact polePlacementPass_passes ext order H_inf f0 s
  · rw [zeroOptStep_passes]
    exact polePlacementPass_passes ext order H_inf f0 s

theorem outerBody_length (ext : ExtFns) (osr : ℝ) (opt : DsOpt) (H_inf f0 : ℝ)
    (order : ℕ) (s : OuterState) (hcp : ∀ l, (ext.cplxpair l).Perm l)
    (hs : s.p.length = order) :
    ((outerBody ext osr opt H_inf f0 order s).1).p.length = order := by
  simp only [outerBody]
  split
  · exact polePlacementPass_length ext order H_inf f0 s hcp hs
  · rw [zeroOptStep_p]
    exact polePlacementPass_length ext order H_inf f0 s hcp hs

theorem outerBody_abs (ext : ExtFns) (osr : ℝ) (opt : DsOpt) (H_inf f0 : ℝ)
    (order : ℕ) (s : OuterState) (hcp : ∀ l, (ext.cplxpair l).Perm l)
    (hs : ∀ q ∈ s.p, Complex.abs q ≤ 1) :
    ∀ q ∈ ((outerBody ext osr opt H_inf f0 order s).1).p, Complex.abs q ≤ 1 := by
  simp only [outerBody]
  split
  · exact polePlacementPass_abs ext order H_inf f0 s hcp hs
  · rw [zeroOptStep_p]
    exact polePlacementPass_abs ext order H_inf f0 s hcp hs

theorem outerLoop_inv (ext : ExtFns) (osr : ℝ) (opt : DsOpt) (H_inf f0 : ℝ)
    (order : ℕ) (P : OuterState → Prop)
    (hP : ∀ s n, P s → P { s with passes := n })
    (hbody : ∀ s, P s → P (outerBody ext osr opt H_inf f0 order s).1) :
    ∀ fuel s, P s → P (outerLoop ext osr opt H_inf f0 order fuel s) := by
  intro fuel
  induction fuel with
  | zero => intro s h; simpa only [outerLoop] using h
  | succ n ih =>
      intro s h
      simp only [outerLoop]
      split
      · exact hP _ _ (hbody _ h)
      · exact ih _ (hP _ _ (hbody _ h))

theorem outerLoop_estab (ext : ExtFns) (osr : ℝ) (opt : DsOpt) (H_inf f0 : ℝ)
    (order : ℕ) (P : OuterState → Prop)
    (hP : ∀ s n, P s → P { s with passes := n })
    (hbody : ∀ s, P (outerBody ext osr opt H_inf f0 order s).1) :
    ∀ fuel s, 0 < fuel → P (outerLoop ext osr opt H_inf f0 order fuel s) := by
  intro fuel
  induction fuel with
  | zero => intro s h; exact absurd h (lt_irrefl 0)
  | succ n ih =>
      intro s _
      simp only [outerLoop]
      split
      · exact hP _ _ (hbody s)
      · cases n with
        | zero => simpa only [outerLoop] using hP _ _ (hbody s)
        | succ m => exact ih _ (Nat.succ_pos m)

theorem outerLoop_passes_le (ext : ExtFns) (osr : ℝ) (opt : DsOpt)
    (H_inf f0 : ℝ) (order : ℕ) :
    ∀ fuel s, (outerLoop ext osr opt H_inf f0 order fuel s).passes ≤
      s.passes + fuel := by
  intro fuel
  induction fuel with
  | zero => intro s; simp only [outerLoop]; omega
  | succ n ih =>
      intro s
      simp only [outerLoop]
      split
      · simp only [outerBody_passes]
        omega
      · refine le_trans (ih _) ?_
        simp only [outerBody_passes]
        omega

theorem outerLoop_passes_mono (ext : ExtFns) (osr : ℝ) (opt : DsOpt)
    (H_inf f0 : ℝ) (order : ℕ) :
    ∀ fuel s, s.passes ≤ (outerLoop ext osr opt H_inf f0 order fuel s).passes := by
  intro fuel
  induction fuel with
  | zero => intro s; simp only [outerLoop]; omega
  | succ n ih =>
      intro s
      simp only [outerLoop]
      split
      · simp only [outerBody_passes]
        omega
      · refine le_trans ?_ (ih _)
        simp only [outerBody_passes]
        omega

theorem outerLoop_passes_ge (ext : ExtFns) (osr : ℝ) (opt : DsOpt)
    (H_inf f0 : ℝ) (order : ℕ) :
    ∀ fuel s, 0 < fuel →
      s.passes + 1 ≤ (outerLoop ext osr opt H_inf f0 order fuel s).passes := by
  intro fuel
  induction fuel with
  | zero => intro s h; exact absurd h (lt_irrefl 0)
  | succ n ih =>
      intro s _
      simp only [outerLoop]
      split
      · simp only [outerBody_passes]
        omega
      · refine le_trans ?_ (outerLoop_passes_mono ext osr opt H_inf f0 order n _)
        simp only [outerBody_passes]
        omega

theorem outerLoop_stop_first (ext : ExtFns) (osr : ℝ) (opt : DsOpt)
    (H_inf f0 : ℝ) (order : ℕ) (fuel : ℕ) (s : OuterState) (hf : 0 < fuel)
    (h : noOptCond opt s.x0) :
    (outerLoop ext osr opt H_inf f0 order fuel s).passes = s.passes + 1 := by
  cases fuel with
  | zero => exact absurd hf (lt_irrefl 0)
  | succ n =>
      have hb : outerBody ext osr opt H_inf f0 order s =
          (polePlacementPass ext order H_inf f0 s, true) := by
        simp only [outerBody]
        rw [if_pos]
        rw [polePlacementPass_x0]
        exact h
      simp only [outerLoop, hb]
      simp [polePlacementPass_passes]

/-- C10: the function returned by dtft_hermitian is identical to the one
returned for the elementwise real part of the input; the imaginary components
never influence the (real-valued) result. -/
theorem c10_dtft_hermitian_ignores_imag (x : List ℂ) (fs : ℝ) :
    dtft_hermitian x fs = dtft_hermitian (x.map fun c => ((c.re : ℝ) : ℂ)) fs := by
  funext f
  simp [dtft_hermitian, List.map_map, Function.comp_def]

/-- C1 (code bug): with default options, every call of q0_weighting on a
weighting callable raises TypeError instead of returning the vector of
idtft_hermitian values: the merged option dictionary, whose key "quad_opts" is
not a keyword parameter of idtft_hermitian, is forwarded wholesale as keyword
arguments on line 127. -/
theorem c1_q0_weighting_always_typeerror
    (quad : (ℝ → ℝ) → ℝ → ℝ → ℝ) (P : ℕ) (w : ℝ → ℂ) :
    q0_weighting quad P w [] =
      .error "TypeError: idtft_hermitian() got an unexpected keyword argument" := by
  rfl

/-- C7 (code bug): every call of q0_from_filter_mag_response raises TypeError
instead of delegating to the weighting-based builder: line 72 passes
integrator_params as a third positional argument to q0_from_noise_weighting,
whose signature accepts only two positional parameters. -/
theorem c7_q0_from_filter_mag_response_typeerror
    (quad : (ℝ → ℝ) → ℝ → ℝ → ℝ) (P : ℕ) (h_mag : ℝ → ℝ)
    (integrator_params : List String) :
    q0_from_filter_mag_response quad P h_mag integrator_params =
      .error "TypeError: q0_from_noise_weighting() takes 2 positional arguments but 3 were given" := by
  rfl

theorem synthesizeNTF1_err (ext : ExtFns) (order0 : ℕ) (osr : ℝ) (opt : DsOpt)
    (H_inf f0 : ℝ) (e : String)
    (hz : zeroPlacement ext (if f0 ≠ 0 then order0 / 2 else order0)
      (if f0 ≠ 0 then π / (2 * osr) else π / osr) opt f0 = .error e) :
    synthesizeNTF1 ext order0 osr opt H_inf f0 = .error e := by
  simp only [synthesizeNTF1]
  rw [hz]

theorem synthesizeNTF1_ok_elim (ext : ExtFns) (order0 : ℕ) (osr : ℝ)
    (opt : DsOpt) (H_inf f0 : ℝ) (r : NTFResult)
    (hr : synthesizeNTF1 ext order0 osr opt H_inf f0 = .ok r) :
    ∃ z ord, zeroPlacement ext (if f0 ≠ 0 then order0 / 2 else order0)
        (if f0 ≠ 0 then π / (2 * osr) else π / osr) opt f0 = .ok (z, ord) ∧
      r = ⟨ext.cplxpair (synthRun ext osr opt H_inf f0 z ord).z,
           (synthRun ext osr opt H_inf f0 z ord).p, 1,
           (synthRun ext osr opt H_inf f0 z ord).warns,
           (synthRun ext osr opt H_inf f0 z ord).passes⟩ := by
  cases hz : zeroPlacement ext (if f0 ≠ 0 then order0 / 2 else order0)
      (if f0 ≠ 0 then π / (2 * osr) else π / osr) opt f0 with
  | error e =>
      rw [synthesizeNTF1_err ext order0 osr opt H_inf f0 e hz] at hr
      exact absurd hr (by simp)
  | ok zo =>
      obtain ⟨z1, ord1⟩ := zo
      refine ⟨z1, ord1, rfl, ?_⟩
      rw [synthesizeNTF1_eq ext order0 osr opt H_inf f0 z1 ord1 hz] at hr
      injection hr with h
      exact h.symm

theorem outerLoop_stop_state (ext : ExtFns) (osr : ℝ) (opt : DsOpt)
    (H_inf f0 : ℝ) (order : ℕ) (fuel : ℕ) (s : OuterState) (hf : 0 < fuel)
    (h : noOptCond opt s.x0) :
    outerLoop ext osr opt H_inf f0 order fuel s =
      { polePlacementPass ext order H_inf f0 s with
        passes := (polePlacementPass ext order H_inf f0 s).passes + 1 } := by
  cases fuel with
  | zero => exact absurd hf (lt_irrefl 0)
  | succ n =>
      have hb : outerBody ext osr opt H_inf f0 order s =
          (polePlacementPass ext order H_inf f0 s, true) := by
        simp only [outerBody]
        rw [if_pos]
        rw [polePlacementPass_x0]
        exact h
      simp only [outerLoop, hb]
      simp

theorem zeroPlacement_scalar_lowpass (ext : ExtFns) (order : ℕ) (dw v : ℝ)
    (h0 : 0 < order) (hdz : ∀ a, (ext.ds_optzeros order a).length = order) :
    ∃ z, zeroPlacement ext order dw (DsOpt.scalar v) 0 = .ok (z, order) := by
  have hlen : (if v = 0 then List.replicate order (0 : ℝ)
      else (ext.ds_optzeros order (1 + pyfmod (v - 1) 2)).map fun a => dw * a).length
      = order := by
    split
    · exact List.length_replicate order 0
    · rw [List.length_map, hdz]
  simp only [zeroPlacement]
  rw [if_neg (by rw [hlen]; omega), if_neg (by simp)]
  exact ⟨_, rfl⟩

theorem zeroPlacement_scalar_bandpass (ext : ExtFns) (order : ℕ) (dw v f0 : ℝ)
    (hf : f0 ≠ 0) (h0 : 0 < order)
    (hdz : ∀ a, (ext.ds_optzeros order a).length = order) :
    ∃ z, zeroPlacement ext order dw (DsOpt.scalar v) f0 = .ok (z, order * 2) := by
  have hlen : (if v = 0 then List.replicate order (0 : ℝ)
      else (ext.ds_optzeros order (1 + pyfmod (v - 1) 2)).map fun a => dw * a).length
      = order := by
    split
    · exact List.length_replicate order 0
    · rw [List.length_map, hdz]
  simp only [zeroPlacement]
  rw [if_neg (by rw [hlen]; omega), if_pos hf]
  exact ⟨_, rfl⟩

/-- C4: every pole of a triple returned by synthesizeNTF1 has magnitude at
most 1, assuming only that the external cplxpair utility is a reordering:
candidate poles are reflected into the unit disc (any candidate of magnitude
above 1 becomes its inverse, second conjunct) and all fallback pole sets are
zeros. -/
theorem c4_poles_inside_unit_disc (ext : ExtFns) (order0 : ℕ) (osr : ℝ)
    (opt : DsOpt) (H_inf f0 : ℝ) (r : NTFResult)
    (hcp : ∀ l, (ext.cplxpair l).Perm l)
    (hr : synthesizeNTF1 ext order0 osr opt H_inf f0 = .ok r) :
    (∀ q ∈ r.p, Complex.abs q ≤ 1) ∧
    (∀ c, 1 < Complex.abs c → reflectPole c = 1 / c) := by
  constructor
  · obtain ⟨z, ord, hz, rfl⟩ := synthesizeNTF1_ok_elim ext order0 osr opt
      H_inf f0 r hr
    have hinv := outerLoop_inv ext osr opt H_inf f0 ord
      (fun s => ∀ q ∈ s.p, Complex.abs q ≤ 1)
      (fun s n h => h)
      (fun s h => outerBody_abs ext osr opt H_inf f0 ord s hcp h)
      5 ⟨z, List.replicate ord 0, freeZeroParams ext z opt osr f0, 0, [], 0⟩
      (by
        intro q hq
        rw [List.eq_of_mem_replicate hq]
        simp)
    exact hinv
  · intro c hc
    unfold reflectPole
    rw [if_pos hc]

/-- C3 (amended): (1) for every lowpass call (f0 = 0) with positive order —
and, for scalar opt, a zero-placement routine returning `order` zeros — and
H_inf ≥ 2^order, synthesizeNTF1 warns and returns all poles at the origin
instead of raising; (2) for every call, lowpass or bandpass and under every
form of opt, in which zero optimization is not requested (line 200: scalar
opt below 3, an explicit zero array, or no free zero parameters) and the
secant sub-iteration exits through the x > 1e6 divergence branch, the
function warns and returns all poles at the origin — for lowpass under
H_inf < 2^order, since otherwise the sub-iteration never runs.  (At
order = 0 the scalar-opt zero placement raises RuntimeError first, which is
what the counterexample records.) -/
theorem c3_fallback_poles :
    (∀ (ext : ExtFns) (order0 : ℕ) (osr : ℝ) (opt : DsOpt) (H_inf : ℝ),
      0 < order0 →
      (∀ a, (ext.ds_optzeros order0 a).length = order0) →
      (2 : ℝ) ^ order0 ≤ H_inf →
      ∃ r, synthesizeNTF1 ext order0 osr opt H_inf 0 = .ok r ∧
        r.p = List.replicate order0 0 ∧ warnHinfLP ∈ r.warns) ∧
    (∀ (ext : ExtFns) (order0 : ℕ) (osr : ℝ) (opt : DsOpt) (H_inf f0 : ℝ)
        (z : List ℂ) (ord : ℕ),
      zeroPlacement ext (if f0 ≠ 0 then order0 / 2 else order0)
        (if f0 ≠ 0 then π / (2 * osr) else π / osr) opt f0 = .ok (z, ord) →
      noOptCond opt (freeZeroParams ext z opt osr f0) →
      (f0 = 0 → H_inf < (2 : ℝ) ^ ord) →
      (firstPassPoleLoop ext H_inf f0 ord z).exit = ExitKind.diverged →
      ∃ r, synthesizeNTF1 ext order0 osr opt H_inf f0 = .ok r ∧
        r.p = List.replicate ord 0 ∧ warnHinfDiv ∈ r.warns) := by
  have e2 : ∀ osr : ℝ, (if (0 : ℝ) ≠ 0 then π / (2 * osr) else π / osr) = π / osr :=
    fun osr => by norm_num
  have e1 : ∀ order0 : ℕ, (if (0 : ℝ) ≠ 0 then order0 / 2 else order0) = order0 :=
    fun order0 => by norm_num
  constructor
  · intro ext order0 osr opt H_inf h0 hdz hH
    have hzp : ∃ z, zeroPlacement ext order0 (π / osr) opt 0 = .ok (z, order0) := by
      cases opt with
      | scalar v => exact zeroPlacement_scalar_lowpass ext order0 (π / osr) v h0 hdz
      | array l => exact ⟨l, rfl⟩
    obtain ⟨z, hz⟩ := hzp
    have hz2 : zeroPlacement ext (if (0 : ℝ) ≠ 0 then order0 / 2 else order0)
        (if (0 : ℝ) ≠ 0 then π / (2 * osr) else π / osr) opt 0 = .ok (z, order0) := by
      rw [e1, e2]
      exact hz
    refine ⟨_, synthesizeNTF1_eq ext order0 osr opt H_inf 0 z order0 hz2, ?_⟩
    have hpass : ∀ s : OuterState,
        (polePlacementPass ext order0 H_inf 0 s).p = List.replicate order0 0 ∧
        warnHinfLP ∈ (polePlacementPass ext order0 H_inf 0 s).warns := by
      intro s
      unfold polePlacementPass
      rw [if_pos rfl, if_pos hH]
      exact ⟨rfl, by simp⟩
    have hbody : ∀ s : OuterState,
        ((outerBody ext osr opt H_inf 0 order0 s).1).p = List.replicate order0 0 ∧
        warnHinfLP ∈ ((outerBody ext osr opt H_inf 0 order0 s).1).warns := by
      intro s
      simp only [outerBody]
      split
      · exact hpass s
      · refine ⟨?_, ?_⟩
        · rw [zeroOptStep_p]
          exact (hpass s).1
        · rw [zeroOptStep_warns]
          exact (hpass s).2
    exact outerLoop_estab ext osr opt H_inf 0 order0
      (fun s => s.p = List.replicate order0 0 ∧ warnHinfLP ∈ s.warns)
      (fun s n h => h) hbody 5 _ (by norm_num)
  · intro ext order0 osr opt H_inf f0 z ord hz hno hHlt hdiv
    refine ⟨_, synthesizeNTF1_eq ext order0 osr opt H_inf f0 z ord hz, ?_⟩
    set s0 : OuterState := ⟨z, List.replicate ord 0,
      freeZeroParams ext z opt osr f0, 0, [], 0⟩ with hs0
    have hstop := outerLoop_stop_state ext osr opt H_inf f0 ord 5 s0
      (by norm_num) hno
    have hrun : synthRun ext osr opt H_inf f0 z ord =
        { polePlacementPass ext ord H_inf f0 s0 with
          passes := (polePlacementPass ext ord H_inf f0 s0).passes + 1 } :=
      hstop
    by_cases hf : f0 = 0
    · subst hf
      set L := poleLoopGo ext (lowpassCandidate ord) z (zinfOf 0) H_inf
        ord 100 1
        ⟨(0.3 : ℝ) ^ ((ord : ℤ) - 1), 0, 0, List.replicate ord 0, [],
          ExitKind.running⟩ with hL
      have hfp : firstPassPoleLoop ext H_inf 0 ord z = L := by
        unfold firstPassPoleLoop
        rw [if_pos rfl]
      rw [hfp] at hdiv
      have hdivL := poleLoopGo_diverged ext (lowpassCandidate ord) z
        (zinfOf 0) H_inf ord 100 1
        ⟨(0.3 : ℝ) ^ ((ord : ℤ) - 1), 0, 0, List.replicate ord 0, [],
          ExitKind.running⟩ rfl hdiv
      have hpp : polePlacementPass ext ord H_inf 0 s0 =
          { s0 with p := L.p, fprev := L.fprev, warns := L.warns } := by
        unfold polePlacementPass
        rw [if_pos rfl, if_neg (not_le.mpr (hHlt rfl))]
      constructor
      · show (synthRun ext osr opt H_inf 0 z ord).p = _
        rw [hrun, hpp]
        exact hdivL.1
      · show warnHinfDiv ∈ (synthRun ext osr opt H_inf 0 z ord).warns
        rw [hrun, hpp]
        exact hdivL.2
    · set L := poleLoopGo ext (bandpassCandidate ord f0) z (zinfOf f0) H_inf
        ord 100 1
        ⟨(0.3 : ℝ) ^ (((ord / 2 : ℕ) : ℤ) - 1), 0, 0, List.replicate ord 0,
          [], ExitKind.running⟩ with hL
      have hfp : firstPassPoleLoop ext H_inf f0 ord z = L := by
        unfold firstPassPoleLoop
        rw [if_neg hf]
      rw [hfp] at hdiv
      have hdivL := poleLoopGo_diverged ext (bandpassCandidate ord f0) z
        (zinfOf f0) H_inf ord 100 1
        ⟨(0.3 : ℝ) ^ (((ord / 2 : ℕ) : ℤ) - 1), 0, 0, List.replicate ord 0,
          [], ExitKind.running⟩ rfl hdiv
      have hpp : polePlacementPass ext ord H_inf f0 s0 =
          { s0 with p := L.p, fprev := L.fprev, warns := L.warns } := by
        unfold polePlacementPass
        rw [if_neg hf]
      constructor
      · show (synthRun ext osr opt H_inf f0 z ord).p = _
        rw [hrun, hpp]
        exact hdivL.1
      · show warnHinfDiv ∈ (synthRun ext osr opt H_inf f0 z ord).warns
        rw [hrun, hpp]
        exact hdivL.2

/-- C8: (i) every successful synthesizeNTF1 call executes the outer H_inf
iteration body between 1 and 5 times; (ii) it executes the body exactly once
when opt is a scalar below 3, an explicit zero array (of several zeros, or a
single zero whose real part is below 3), or when there are no free zero
parameters; (iii) a zero-optimization step stops the outer iteration as soon
as the realized peak gain matches H_inf within 1e-10. -/
theorem c8_outer_iteration_count :
    (∀ (ext : ExtFns) (order0 : ℕ) (osr : ℝ) (opt : DsOpt) (H_inf f0 : ℝ)
        (r : NTFResult),
      synthesizeNTF1 ext order0 osr opt H_inf f0 = .ok r →
      1 ≤ r.passes ∧ r.passes ≤ 5) ∧
    (∀ (ext : ExtFns) (order0 : ℕ) (osr : ℝ) (opt : DsOpt) (H_inf f0 : ℝ)
        (r : NTFResult),
      synthesizeNTF1 ext order0 osr opt H_inf f0 = .ok r →
      ((∃ v, opt = DsOpt.scalar v ∧ v < 3) ∨
        (∃ l, opt = DsOpt.array l ∧ (1 < l.length ∨ (l.headD 0).re < 3)) ∨
        (∀ z ord, zeroPlacement ext (if f0 ≠ 0 then order0 / 2 else order0)
            (if f0 ≠ 0 then π / (2 * osr) else π / osr) opt f0 = .ok (z, ord) →
          freeZeroParams ext z opt osr f0 = [])) →
      r.passes = 1) ∧
    (∀ (ext : ExtFns) (osr H_inf f0 : ℝ) (s : OuterState),
      |(ext.evalTF ((reoptZ ext osr f0 s.x0 s.p).2, s.p, 1) (zinfOf f0)).re -
          H_inf| < 1e-10 →
      (zeroOptStep ext osr H_inf f0 s).2 = true) := by
  refine ⟨?_, ?_, ?_⟩
  · intro ext order0 osr opt H_inf f0 r hr
    obtain ⟨z, ord, hz, rfl⟩ := synthesizeNTF1_ok_elim ext order0 osr opt
      H_inf f0 r hr
    constructor
    · have h := outerLoop_passes_ge ext osr opt H_inf f0 ord 5
        ⟨z, List.replicate ord 0, freeZeroParams ext z opt osr f0, 0, [], 0⟩
        (by norm_num)
      simpa [synthRun] using h
    · have h := outerLoop_passes_le ext osr opt H_inf f0 ord 5
        ⟨z, List.replicate ord 0, freeZeroParams ext z opt osr f0, 0, [], 0⟩
      simpa [synthRun] using h
  · intro ext order0 osr opt H_inf f0 r hr hcond
    obtain ⟨z, ord, hz, rfl⟩ := synthesizeNTF1_ok_elim ext order0 osr opt
      H_inf f0 r hr
    have hno : noOptCond opt (freeZeroParams ext z opt osr f0) := by
      rcases hcond with ⟨v, rfl, hv⟩ | ⟨l, rfl, hl⟩ | hx
      · exact Or.inl ⟨rfl, hv⟩
      · cases l with
        | nil =>
            refine Or.inr (Or.inr ?_)
            have hzl : z = [] := by
              have : zeroPlacement ext
                  (if f0 ≠ 0 then order0 / 2 else order0)
                  (if f0 ≠ 0 then π / (2 * osr) else π / osr)
                  (DsOpt.array []) f0 =
                  .ok (([] : List ℂ), if f0 ≠ 0 then order0 / 2 else order0) := rfl
              rw [this] at hz
              injection hz with h
              exact (congrArg Prod.fst h).symm
            rw [hzl]
            simp [freeZeroParams]
        | cons c t =>
            cases t with
            | nil =>
                rcases hl with hl | hl
                · exact absurd hl (by simp [DsOpt.size])
                · exact Or.inl ⟨rfl, hl⟩
            | cons c2 t2 =>
                refine Or.inr (Or.inl ?_)
                simp [DsOpt.size]
      · have := hx z ord hz
        refine Or.inr (Or.inr ?_)
        rw [this]
        simp
    have h := outerLoop_stop_first ext osr opt H_inf f0 ord 5
      ⟨z, List.replicate ord 0, freeZeroParams ext z opt osr f0, 0, [], 0⟩
      (by norm_num) hno
    simpa [synthRun] using h
  · intro ext osr H_inf f0 s h
    simp only [zeroOptStep]
    rw [if_pos h]

theorem evalCallA : synthesizeNTF1 extW 1 32 (DsOpt.array [1]) 2 0 =
    .ok ⟨[1], [0], 1, [warnHinfLP], 1⟩ := by
  have e1 : (if (0 : ℝ) ≠ 0 then (1 : ℕ) / 2 else 1) = 1 := by norm_num
  have hz : zeroPlacement extW (if (0 : ℝ) ≠ 0 then 1 / 2 else 1)
      (if (0 : ℝ) ≠ 0 then π / (2 * 32) else π / 32) (DsOpt.array [1]) 0 =
      .ok ([1], 1) := by
    rw [show zeroPlacement extW (if (0 : ℝ) ≠ 0 then (1 : ℕ) / 2 else 1)
      (if (0 : ℝ) ≠ 0 then π / (2 * 32) else π / 32) (DsOpt.array [1]) 0 =
      .ok ([1], if (0 : ℝ) ≠ 0 then (1 : ℕ) / 2 else 1) from rfl, e1]
  rw [synthesizeNTF1_eq extW 1 32 (DsOpt.array [1]) 2 0 [1] 1 hz]
  have hdec : (decide (0 < Complex.arg 1)) = false :=
    decide_eq_false (by rw [Complex.arg_one]; exact lt_irrefl 0)
  have hx0 : freeZeroParams extW [1] (DsOpt.array [1]) 32 0 = [] := by
    simp only [freeZeroParams]
    rw [if_neg (by simp)]
    rw [show List.filter (fun c => decide (0 < Complex.arg c)) [(1 : ℂ)] = []
      from by rw [List.filter_cons]; rw [hdec]; rfl]
    rfl
  have hstop := outerLoop_stop_state extW 32 (DsOpt.array [1]) 2 0 1 5
    ⟨[1], List.replicate 1 0, freeZeroParams extW [1] (DsOpt.array [1]) 32 0,
      0, [], 0⟩ (by norm_num) (Or.inr (Or.inr (by simp [hx0])))
  have hpass : polePlacementPass extW 1 2 0
      ⟨[1], List.replicate 1 0, freeZeroParams extW [1] (DsOpt.array [1]) 32 0,
        0, [], 0⟩ =
      { z := [1], p := List.replicate 1 0,
        x0 := freeZeroParams extW [1] (DsOpt.array [1]) 32 0, fprev := 0,
        warns := [] ++ [warnHinfLP], passes := 0 } := by
    unfold polePlacementPass
    rw [if_pos rfl, if_pos (by norm_num : (2 : ℝ) ^ (1 : ℕ) ≤ 2)]
  show Except.ok _ = _
  unfold synthRun
  rw [hstop, hpass]
  rfl

theorem c4_witness : Complex.abs 0 ≤ 1 :=
  (c4_poles_inside_unit_disc extW 1 32 (DsOpt.array [1]) 2 0
    ⟨[1], [0], 1, [warnHinfLP], 1⟩ (fun l => List.Perm.refl l) evalCallA).1
    0 (by simp)

theorem c8_witness :
    ((1 : ℕ) ≤ 1 ∧ (1 : ℕ) ≤ 5) ∧ (1 : ℕ) = 1 ∧
      (zeroOptStep extC8 32 2 0 sW).2 = true :=
  ⟨c8_outer_iteration_count.1 extW 1 32 (DsOpt.array [1]) 2 0
      ⟨[1], [0], 1, [warnHinfLP], 1⟩ evalCallA,
   c8_outer_iteration_count.2.1 extW 1 32 (DsOpt.array [1]) 2 0
      ⟨[1], [0], 1, [warnHinfLP], 1⟩ evalCallA
      (Or.inr (Or.inl ⟨[1], rfl, Or.inr (by norm_num)⟩)),
   c8_outer_iteration_count.2.2 extC8 32 2 0 sW (by
      have : extC8.evalTF ((reoptZ extC8 32 0 sW.x0 sW.p).2, sW.p, 1)
          (zinfOf 0) = ((2 : ℝ) : ℂ) := rfl
      rw [this, Complex.ofReal_re]
      norm_num)⟩

theorem c3_witness :
    (∃ r, synthesizeNTF1 extW 1 32 (DsOpt.scalar 0) 2 0 = .ok r ∧
      r.p = List.replicate 1 0 ∧ warnHinfLP ∈ r.warns) ∧
    (∃ r, synthesizeNTF1 extD 1 32 (DsOpt.scalar 0) 1 0 = .ok r ∧
      r.p = List.replicate 1 0 ∧ warnHinfDiv ∈ r.warns) := by
  constructor
  · exact c3_fallback_poles.1 extW 1 32 (DsOpt.scalar 0) 2 (by norm_num)
      (fun a => List.length_replicate 1 0) (by norm_num)
  · have e1 : (if (0 : ℝ) ≠ 0 then (1 : ℕ) / 2 else 1) = 1 := by norm_num
    have e2 : (if (0 : ℝ) ≠ 0 then π / (2 * (32 : ℝ)) else π / 32) = π / 32 := by
      norm_num
    have hz : zeroPlacement extD (if (0 : ℝ) ≠ 0 then (1 : ℕ) / 2 else 1)
        (if (0 : ℝ) ≠ 0 then π / (2 * 32) else π / 32) (DsOpt.scalar 0) 0 =
        .ok ((List.replicate 1 (0 : ℝ)).map fun (a : ℝ) =>
          Complex.exp (Complex.I * (a : ℂ)), 1) := by
      rw [e1, e2]
      simp [zeroPlacement]
    refine c3_fallback_poles.2 extD 1 32 (DsOpt.scalar 0) 1 0
      ((List.replicate 1 (0 : ℝ)).map fun (a : ℝ) =>
        Complex.exp (Complex.I * (a : ℂ))) 1 hz
      (Or.inl ⟨rfl, by norm_num [DsOpt.lt3]⟩)
      (fun hh => by norm_num) ?_
    have hfp : firstPassPoleLoop extD 1 0 1
        ((List.replicate 1 (0 : ℝ)).map fun (a : ℝ) =>
          Complex.exp (Complex.I * (a : ℂ))) =
        poleLoopGo extD (lowpassCandidate 1)
          ((List.replicate 1 (0 : ℝ)).map fun (a : ℝ) =>
            Complex.exp (Complex.I * (a : ℂ)))
          (zinfOf 0) 1 1 100 1
          ⟨(0.3 : ℝ) ^ (((1 : ℕ) : ℤ) - 1), 0, 0, List.replicate 1 0, [],
            ExitKind.running⟩ := by
      unfold firstPassPoleLoop
      rw [if_pos rfl]
    rw [hfp]
    refine poleLoopGo_diverges_step extD (lowpassCandidate 1)
      ((List.replicate 1 (0 : ℝ)).map fun (a : ℝ) =>
        Complex.exp (Complex.I * (a : ℂ)))
      (zinfOf 0) 1 1 99 1
      ⟨(0.3 : ℝ) ^ ((1 : ℤ) - 1), 0, 0, List.replicate 1 0, [],
        ExitKind.running⟩
      (-100000001) ?_ rfl ?_ ?_ ?_
    · show ((-100000000 : ℝ) : ℂ).re - 1 = -100000001
      rw [Complex.ofReal_re]
      norm_num
    · push_neg
      refine ⟨?_, ?_⟩
      · rw [abs_of_nonpos (by norm_num : (-100000001 : ℝ) ≤ 0)]
        norm_num
      · have habs : |-(-100000001 : ℝ) / 100| = -(-100000001 : ℝ) / 100 :=
          abs_of_nonneg (by norm_num)
        rw [habs]
        norm_num
    · show (0 : ℝ) < (0.3 : ℝ) ^ ((1 : ℤ) - 1) + -(-100000001 : ℝ) / 100
      norm_num
    · show (1e6 : ℝ) < (0.3 : ℝ) ^ ((1 : ℤ) - 1) + -(-100000001 : ℝ) / 100
      norm_num

/-- C9 (amended): for a bandpass call (f0 ≠ 0) of even positive order with a
scalar opt, the halved order is doubled back during zero placement and the
returned pole vector has length equal to the requested order; with an
explicit zero-array opt the order is never doubled back, and the pole vector
has length order/2. -/
theorem c9_pole_vector_length :
    (∀ (ext : ExtFns) (order0 : ℕ) (osr v H_inf f0 : ℝ),
      (∀ l, (ext.cplxpair l).Perm l) →
      (∀ n a, (ext.ds_optzeros n a).length = n) →
      f0 ≠ 0 → 2 ∣ order0 → 0 < order0 →
      ∃ r, synthesizeNTF1 ext order0 osr (DsOpt.scalar v) H_inf f0 = .ok r ∧
        r.p.length = order0) ∧
    (∀ (ext : ExtFns) (order0 : ℕ) (osr H_inf f0 : ℝ) (l : List ℂ),
      (∀ l2, (ext.cplxpair l2).Perm l2) →
      f0 ≠ 0 →
      ∃ r, synthesizeNTF1 ext order0 osr (DsOpt.array l) H_inf f0 = .ok r ∧
        r.p.length = order0 / 2) := by
  constructor
  · intro ext order0 osr v H_inf f0 hcp hdz hf heven h0
    have h02 : 0 < order0 / 2 := Nat.div_pos (Nat.le_of_dvd h0 heven) (by norm_num)
    obtain ⟨z, hz⟩ := zeroPlacement_scalar_bandpass ext (order0 / 2)
      (π / (2 * osr)) v f0 hf h02 (fun a => hdz (order0 / 2) a)
    have hz2 : zeroPlacement ext (if f0 ≠ 0 then order0 / 2 else order0)
        (if f0 ≠ 0 then π / (2 * osr) else π / osr) (DsOpt.scalar v) f0 =
        .ok (z, order0 / 2 * 2) := by
      rw [if_pos hf, if_pos hf]
      exact hz
    refine ⟨_, synthesizeNTF1_eq ext order0 osr (DsOpt.scalar v) H_inf f0 z
      (order0 / 2 * 2) hz2, ?_⟩
    have := outerLoop_inv ext osr (DsOpt.scalar v) H_inf f0 (order0 / 2 * 2)
      (fun s => s.p.length = order0 / 2 * 2)
      (fun s n h => h)
      (fun s h => outerBody_length ext osr (DsOpt.scalar v) H_inf f0 _ s hcp h)
      5 ⟨z, List.replicate (order0 / 2 * 2) 0,
        freeZeroParams ext z (DsOpt.scalar v) osr f0, 0, [], 0⟩
      (List.length_replicate _ 0)
    show (synthRun ext osr (DsOpt.scalar v) H_inf f0 z (order0 / 2 * 2)).p.length = order0
    rw [show synthRun ext osr (DsOpt.scalar v) H_inf f0 z (order0 / 2 * 2) =
      outerLoop ext osr (DsOpt.scalar v) H_inf f0 (order0 / 2 * 2) 5
        ⟨z, List.replicate (order0 / 2 * 2) 0,
          freeZeroParams ext z (DsOpt.scalar v) osr f0, 0, [], 0⟩ from rfl]
    rw [this, Nat.div_mul_cancel heven]
  · intro ext order0 osr H_inf f0 l hcp hf
    have hz2 : zeroPlacement ext (if f0 ≠ 0 then order0 / 2 else order0)
        (if f0 ≠ 0 then π / (2 * osr) else π / osr) (DsOpt.array l) f0 =
        .ok (l, order0 / 2) := by
      rw [if_pos hf]
      rfl
    refine ⟨_, synthesizeNTF1_eq ext order0 osr (DsOpt.array l) H_inf f0 l
      (order0 / 2) hz2, ?_⟩
    exact outerLoop_inv ext osr (DsOpt.array l) H_inf f0 (order0 / 2)
      (fun s => s.p.length = order0 / 2)
      (fun s n h => h)
      (fun s h => outerBody_length ext osr (DsOpt.array l) H_inf f0 _ s hcp h)
      5 ⟨l, List.replicate (order0 / 2) 0,
        freeZeroParams ext l (DsOpt.array l) osr f0, 0, [], 0⟩
      (List.length_replicate _ 0)

/-- C9 counterexample: a bandpass call (f0 = 1/5) of requested order 4 with an
explicit zero array returns a pole vector of length 2, not 4: the order,
halved at entry, is doubled back only in the scalar-opt branch of the zero
placement. -/
theorem c9_counterexample_array_opt :
    polesLen (synthesizeNTF1 extW 4 32 (DsOpt.array [1, 1, 1, 1]) (3 / 2)
      (1 / 5)) = some 2 ∧ (2 : ℕ) ≠ 4 := by
  refine ⟨?_, by decide⟩
  have hz2 : zeroPlacement extW (if (1 / 5 : ℝ) ≠ 0 then 4 / 2 else 4)
      (if (1 / 5 : ℝ) ≠ 0 then π / (2 * 32) else π / 32)
      (DsOpt.array [1, 1, 1, 1]) (1 / 5) = .ok ([1, 1, 1, 1], 2) := by
    rw [if_pos (by norm_num : (1 / 5 : ℝ) ≠ 0)]
    rfl
  rw [synthesizeNTF1_eq extW 4 32 (DsOpt.array [1, 1, 1, 1]) (3 / 2) (1 / 5)
    [1, 1, 1, 1] 2 hz2]
  have hlen := outerLoop_inv extW 32 (DsOpt.array [1, 1, 1, 1]) (3 / 2)
    (1 / 5) 2 (fun s => s.p.length = 2)
    (fun s n h => h)
    (fun s h => outerBody_length extW 32 (DsOpt.array [1, 1, 1, 1]) (3 / 2)
      (1 / 5) 2 s (fun l2 => List.Perm.refl l2) h)
    5 ⟨[1, 1, 1, 1], List.replicate 2 0,
      freeZeroParams extW [1, 1, 1, 1] (DsOpt.array [1, 1, 1, 1]) 32 (1 / 5),
      0, [], 0⟩ (List.length_replicate 2 0)
  simp only [polesLen, Except.toOption, Option.map]
  exact congrArg some hlen


/-- C3 counterexample: the lowpass call of order 0 with opt = 0 and
H_inf = 3/2 ≥ 2^0 = 1 raises RuntimeError from the zero placement (the zero
list is empty) instead of warning and returning an all-origin pole vector, so
the claim fails for this lowpass call with H_inf ≥ 2^order. -/
theorem c3_counterexample_order0 :
    synthesizeNTF1 extW 0 32 (DsOpt.scalar 0) (3 / 2) 0 =
      .error "RuntimeError: Cannot synthesize NTF zeros" ∧
    (synthesizeNTF1 extW 0 32 (DsOpt.scalar 0) (3 / 2) 0).toOption = none := by
  have hz : zeroPlacement extW (if (0 : ℝ) ≠ 0 then 0 / 2 else 0)
      (if (0 : ℝ) ≠ 0 then π / (2 * 32) else π / 32) (DsOpt.scalar 0) 0 =
      .error "RuntimeError: Cannot synthesize NTF zeros" := by
    rw [show (if (0 : ℝ) ≠ 0 then (0 : ℕ) / 2 else 0) = 0 from by norm_num]
    simp [zeroPlacement]
  have h := synthesizeNTF1_err extW 0 32 (DsOpt.scalar 0) (3 / 2) 0
    "RuntimeError: Cannot synthesize NTF zeros" hz
  exact ⟨h, by rw [h]; rfl⟩

theorem c9_witness :
    (∃ r, synthesizeNTF1 extW 4 32 (DsOpt.scalar 1) (3 / 2) (1 / 5) = .ok r ∧
      r.p.length = 4) ∧
    (∃ r, synthesizeNTF1 extW 4 32 (DsOpt.array [1, 1, 1, 1]) (3 / 2) (1 / 5) =
      .ok r ∧ r.p.length = 4 / 2) :=
  ⟨c9_pole_vector_length.1 extW 4 32 1 (3 / 2) (1 / 5)
      (fun l => List.Perm.refl l) (fun n a => List.length_replicate n 0)
      (by norm_num) (by norm_num) (by norm_num),
   c9_pole_vector_length.2 extW 4 32 (3 / 2) (1 / 5) [1, 1, 1, 1]
      (fun l2 => List.Perm.refl l2) (by norm_num)⟩

end
